import Mathlib

/-!
# Verification of the Telegram → ClickUp voice-message pipeline

Shallow embedding of the pure decision logic of the repository
(`process_voice_messages.py`, `clickup_client.py`, `create_clickup_tasks.py`)
together with proofs of the specification claims.

Modelling conventions:
* Python integers are `Int`/`Nat`; fractional quantities (float parses,
  time deltas in seconds) are `ℚ`.
* A fallible Python function is a Lean function into `Except`/`Option`.
* External library calls (the HTTP layer, `dateparser`, `int(str)` parsing,
  `parsedate_to_datetime`) are modelled as explicit input data: each call
  site receives the outcome the library would have produced.
* `time.sleep` durations are irrelevant to the claims except where a claim
  speaks about the computed delay, in which case the delay value is
  accumulated and returned.
-/

namespace TgClickup

/-! ## Generic retry executor (`_execute_with_retry`, process_voice_messages.py:188-222)

The operation is modelled as a function from the (1-based) attempt number to
`Except E A`: invocation `k` either returns a value or raises error `op k`.
The executor returns the final outcome together with the number of
invocations actually performed.  `KeyboardInterrupt` re-raising is outside
the model (it aborts the whole process).  The recursion is driven by the
number of attempts still allowed after the current one (`fuel`), so the
current attempt index is `attempts - fuel`. -/

/-- One pass of the `for attempt in range(1, attempts + 1)` loop of
`_execute_with_retry`: run the current attempt; on success return, on failure
either retry (attempts remaining) or re-raise the last error. -/
def retryLoop (op : Nat → Except E A) : (fuel : Nat) → (attempt : Nat) → Except E A × Nat
  | 0, attempt =>
    match op attempt with
    | .ok a => (.ok a, attempt)
    | .error e => (.error e, attempt)
  | fuel + 1, attempt =>
    match op attempt with
    | .ok a => (.ok a, attempt)
    | .error _ => retryLoop op fuel (attempt + 1)

/-- `_execute_with_retry(operation, ..., max_attempts)`: `attempts =
max(1, max_attempts)`; attempts are numbered from 1.  Returns the result and
the number of invocations of `operation`. -/
def executeWithRetry (op : Nat → Except E A) (maxAttempts : Int) : Except E A × Nat :=
  retryLoop op ((max 1 maxAttempts).toNat - 1) 1

/-! ## HTTP layer

An HTTP attempt either fails in transport (`requests.RequestException`
raised by `requests.request`/`requests.post`) or yields a response with a
status code.  The sequence of attempt outcomes is the model's input: the
outcome of the `k`-th request issued is `outcomes k`. -/

/-- Outcome of one HTTP request. -/
inductive HttpOutcome
  | transport
  | status (code : Nat)
deriving DecidableEq, Repr

/-- Error finally raised by an HTTP helper: the transport exception, the
`HTTPError` carried by an error-status response (from `raise_for_status`),
or the `OverflowError` that escapes `_parse_retry_after` on a
float-infinity `Retry-After` value (see `parseRetryAfter`). -/
inductive ReqError
  | transportErr
  | httpError (code : Nat)
  | overflowErr
deriving DecidableEq, Repr

/-- `RETRYABLE_STATUS_CODES` (process_voice_messages.py:55). -/
def retryableStatusCodes : List Nat := [408, 425, 429, 500, 502, 503, 504]

/-- The `for attempt in range(1, max_attempts + 1)` loop of
`_request_with_retries` (process_voice_messages.py:115-185).  `fuel` is the
number of attempts still allowed after the current one, so the current
attempt is the last one exactly when `fuel = 0`.  Returns the result and the
1-based index of the last attempt performed (= number of requests issued).
`raise_for_status` raises exactly on statuses `≥ 400`. -/
def rwrAux (outcomes : Nat → HttpOutcome) : (fuel : Nat) → (attempt : Nat) → Except ReqError Nat × Nat
  | 0, attempt =>
    match outcomes attempt with
    | .transport => (.error .transportErr, attempt)
    | .status c =>
      if 400 ≤ c then (.error (.httpError c), attempt) else (.ok c, attempt)
  | fuel + 1, attempt =>
    match outcomes attempt with
    | .transport => rwrAux outcomes fuel (attempt + 1)
    | .status c =>
      if c ∈ retryableStatusCodes then rwrAux outcomes fuel (attempt + 1)
      else if 400 ≤ c then rwrAux outcomes fuel (attempt + 1)
      else (.ok c, attempt)

/-- `_request_with_retries(method, url, max_attempts=...)`: attempts are
numbered from 1.  The model assumes `max_attempts ≥ 1` (the default is 4; the
degenerate `max_attempts ≤ 0` loop body never runs in Python and ends in a
bare `RuntimeError`). -/
def requestWithRetries (outcomes : Nat → HttpOutcome) (maxAttempts : Nat) :
    Except ReqError Nat × Nat :=
  rwrAux outcomes (maxAttempts - 1) 1

/-- Parsed form of the `Retry-After` header value as seen by
`_parse_retry_after` (clickup_client.py:85-123):
* `missing`: header absent or empty string;
* `numeric s`: `float(value)` succeeded with the finite value `s` (every
  finite float is a rational) — a string in Python float syntax is never a
  parseable HTTP date, so a negative `s` falls through the date branch into
  the default;
* `numericInf` / `numericNegInf` / `numericNan`: `float(value)` succeeded
  with `inf` / `-inf` / `nan` (inputs such as `"inf"`, `"1e999"`, `"-inf"`,
  `"nan"`);
* `httpDate delta`: `float` failed, `parsedate_to_datetime` succeeded and the
  parsed instant lies `delta` seconds from `datetime.now(timezone.utc)`;
* `unparseable`: both parses failed. -/
inductive RetryAfterHeader
  | missing
  | numeric (seconds : ℚ)
  | numericInf
  | numericNegInf
  | numericNan
  | httpDate (deltaSeconds : ℚ)
  | unparseable
deriving DecidableEq

/-- `_parse_retry_after(value, default_seconds=2)`.  `none` models its one
uncaught exception: on `+inf`, `seconds < 0` is false and `ceil(inf)` raises
`OverflowError`, which the surrounding `except (TypeError, ValueError)` does
not catch.  On `-inf` the sign check raises `ValueError` and on `nan`
`ceil(nan)` raises `ValueError`; both are caught, the date reparse of a
float-syntax string fails, and the default is returned. -/
def parseRetryAfter (v : RetryAfterHeader) (defaultSeconds : Int := 2) : Option Int :=
  match v with
  | .missing => some defaultSeconds
  | .numeric s => if s < 0 then some defaultSeconds else some ⌈s⌉
  | .numericInf => none
  | .numericNegInf => some defaultSeconds
  | .numericNan => some defaultSeconds
  | .httpDate d => if d ≤ 0 then some defaultSeconds else some ⌈d⌉
  | .unparseable => some defaultSeconds

/-- The sleep computed on a 429 retry in `create_clickup_task`
(clickup_client.py:142): `backoff = retry_after * (2 ** attempt)`. -/
def clickupBackoff (retryAfter : Int) (attempt : Nat) : Int :=
  retryAfter * 2 ^ attempt

/-- The `for attempt in range(max_attempts)` loop of `create_clickup_task`
(clickup_client.py:126-156) with `max_attempts = 4` and 0-based attempts:
retry (sleeping `clickupBackoff`) only on a 429 with attempts remaining;
any other error status or transport exception propagates immediately, as
does the `OverflowError` of `_parse_retry_after` on an infinite hint.
Returns (result, number of requests issued, list of sleeps performed).
`headers k` is the parsed `Retry-After` header of the `k`-th response. -/
def cctAux (outcomes : Nat → HttpOutcome) (headers : Nat → RetryAfterHeader) :
    (fuel : Nat) → (attempt : Nat) → (delays : List Int) → Except ReqError Nat × Nat × List Int
  | 0, attempt, delays =>
    match outcomes attempt with
    | .transport => (.error .transportErr, attempt + 1, delays.reverse)
    | .status c =>
      if 400 ≤ c then (.error (.httpError c), attempt + 1, delays.reverse)
      else (.ok c, attempt + 1, delays.reverse)
  | fuel + 1, attempt, delays =>
    match outcomes attempt with
    | .transport => (.error .transportErr, attempt + 1, delays.reverse)
    | .status c =>
      if c = 429 then
        match parseRetryAfter (headers attempt) with
        | none => (.error .overflowErr, attempt + 1, delays.reverse)
        | some retryAfter =>
          cctAux outcomes headers fuel (attempt + 1)
            (clickupBackoff retryAfter attempt :: delays)
      else if 400 ≤ c then (.error (.httpError c), attempt + 1, delays.reverse)
      else (.ok c, attempt + 1, delays.reverse)

/-- `create_clickup_task(token, list_id, payload)`: its own 4-attempt loop. -/
def createClickupTask (outcomes : Nat → HttpOutcome) (headers : Nat → RetryAfterHeader) :
    Except ReqError Nat × Nat × List Int :=
  cctAux outcomes headers 3 0 []

/-! ## Telegram polling and the cursor (`get_recent_voice_messages`, `run_once`)

`run_once` loads `last_update_id` from the state file, polls `getUpdates`
with `offset = last_update_id + 1`, tracks the maximum update id seen, builds
the voice-message list, optionally slices it to `--limit`, and persists
`state['last_update_id']` only when the newly computed id is present and
differs from the stored one (process_voice_messages.py:1453-1456).

An update is modelled by its optional `update_id` and whether it passes all
the message filters (right chat, time window, carries voice/audio) and so
contributes a voice-message entry.  The Telegram `getUpdates` contract —
with `offset = n + 1` only updates with id `> n` are returned — enters the
theorems as an explicit hypothesis on the update list. -/

/-- One `getUpdates` result entry, reduced to the fields the cursor logic
reads. -/
structure TgUpdate where
  updateId : Option Int
  isVoice : Bool
deriving DecidableEq, Repr

/-- One step of the `max_update_id` accumulator of
`get_recent_voice_messages` (process_voice_messages.py:909-911):
`max_update_id = update_id if max_update_id is None else max(max_update_id,
update_id)`, skipped when the update has no id. -/
def accMaxId (acc : Option Int) (uid : Option Int) : Option Int :=
  match uid with
  | none => acc
  | some i =>
    match acc with
    | none => some i
    | some m => some (max m i)

/-- The running `max_update_id`, seeded with `last_update_id` and folded over
all returned updates in order. -/
def tgMaxUpdateId (last : Option Int) : List TgUpdate → Option Int
  | [] => last
  | u :: rest => tgMaxUpdateId (accMaxId last u.updateId) rest

/-- `max(ids)` of a nonempty list, left-folded. -/
def listMaxAux (cur : Int) : List Int → Int
  | [] => cur
  | i :: rest => listMaxAux (max cur i) rest

/-- `_max_voice_update_id` (process_voice_messages.py:541-543): `max` of the
integer update ids of the (possibly sliced) voice messages, `None` when there
are none. -/
def maxVoiceUpdateId : List Int → Option Int
  | [] => none
  | i :: rest => some (listMaxAux i rest)

/-- The voice-message list of one run after the optional `--limit` slice
(process_voice_messages.py:1290-1291): slicing happens only when the limit is
present and non-negative. -/
def voiceMessagesOf (updates : List TgUpdate) (limit : Option Int) : List TgUpdate :=
  let voices := updates.filter (·.isVoice)
  match limit with
  | some n => if 0 ≤ n then voices.take n.toNat else voices
  | none => voices

/-- `state_update_id` of `run_once` (process_voice_messages.py:1453):
`processed_update_id` when some voice message carried an id, else the maximum
id seen. -/
def stateUpdateIdOf (last : Option Int) (updates : List TgUpdate) (limit : Option Int) :
    Option Int :=
  match maxVoiceUpdateId ((voiceMessagesOf updates limit).filterMap (·.updateId)) with
  | some i => some i
  | none => tgMaxUpdateId last updates

/-- The cursor outcome of one `run_once` iteration
(process_voice_messages.py:1454-1456): the stored cursor after the run and
whether `save_state` was called. -/
def runOnceCursorState (last : Option Int) (updates : List TgUpdate) (limit : Option Int) :
    Option Int × Bool :=
  let stateUpdateId := stateUpdateIdOf last updates limit
  if stateUpdateId ≠ none ∧ stateUpdateId ≠ last then (stateUpdateId, true) else (last, false)

/-! ## Name normalization (`_normalize_name`, process_voice_messages.py:412-413)

`" ".join(name.strip().lower().split())`.  Python's `str.strip`/`str.split`
treat Unicode whitespace and `str.lower` is full Unicode; the model covers
ASCII whitespace and ASCII + Cyrillic letter case, the alphabets this
pipeline handles (`languages=["ru", "en"]`). -/

/-- ASCII whitespace as recognised by `str.strip`/`str.split`. -/
def isPySpace (c : Char) : Bool :=
  c == ' ' || c == '\t' || c == '\n' || c == '\r' || c == '\x0b' || c == '\x0c'

/-- `str.lower`, restricted to ASCII (A-Z) and Cyrillic (А-Я, Ё). -/
def pyLowerChar (c : Char) : Char :=
  if 'A' ≤ c ∧ c ≤ 'Z' then Char.ofNat (c.toNat + 32)
  else if 'А' ≤ c ∧ c ≤ 'Я' then Char.ofNat (c.toNat + 32)
  else if c = 'Ё' then 'ё'
  else c

/-- `str.strip` on a character list. -/
def pyStripList (l : List Char) : List Char :=
  ((l.dropWhile isPySpace).reverse.dropWhile isPySpace).reverse

/-- `str.strip`. -/
def pyStrip (s : String) : String := String.mk (pyStripList s.toList)

/-- `str.split()` (no argument: split on whitespace runs, no empty parts),
with the current word accumulated in reverse. -/
def pySplitWsAux (cur : List Char) : List Char → List (List Char)
  | [] => if cur.isEmpty then [] else [cur.reverse]
  | c :: rest =>
    if isPySpace c then
      if cur.isEmpty then pySplitWsAux [] rest
      else cur.reverse :: pySplitWsAux [] rest
    else pySplitWsAux (c :: cur) rest

/-- `str.split()`. -/
def pySplitWs (l : List Char) : List (List Char) := pySplitWsAux [] l

/-- `_normalize_name(name)`: strip, lowercase, collapse whitespace runs to
single spaces. -/
def normalizeName (s : String) : String :=
  String.intercalate " " ((pySplitWs ((pyStripList s.toList).map pyLowerChar)).map String.mk)

/-! ## Association lists standing for Python dicts

A Python dict is modelled as an association list with (assumed) unique keys.
`assocSet` is `d[k] = v`: it replaces the value of an existing key in place
and appends a new key at the end, as dict assignment does. -/

/-- `d.get(k)`. -/
def assocLookup (k : String) : List (String × α) → Option α
  | [] => none
  | p :: rest => if p.1 = k then some p.2 else assocLookup k rest

/-- `d[k] = v` on a unique-key association list. -/
def assocSet (k : String) (v : α) : List (String × α) → List (String × α)
  | [] => [(k, v)]
  | p :: rest => if p.1 = k then (k, v) :: rest else p :: assocSet k v rest

/-! ## Assignee map preparation (`prepare_assignee_map`,
process_voice_messages.py:546-572)

Raw config values are JSON-ish: keys may be non-strings, values may be
scalars or lists whose elements are ints, numeric strings, floats, `None`,
or anything else.  `asInt` on a string constructor is the outcome of
Python's `int(...)` on it; `trunc` on the float constructor is `int(...)`'s
truncation toward zero. -/

/-- A raw JSON-ish value from `config.json`. -/
inductive PyVal
  | vNull
  | vInt (i : Int)
  | vStr (s : String) (asInt : Option Int)
  | vFloat (trunc : Int)
  | vList (items : List PyVal)
  | vOther

/-- A raw dict key. -/
inductive RawKey
  | kStr (s : String)
  | kOther

/-- `int(item)` in the value loop of `prepare_assignee_map`: `None` is
skipped explicitly; lists and other objects raise `TypeError`, also
skipped. -/
def itemToInt : PyVal → Option Int
  | .vNull => none
  | .vInt i => some i
  | .vStr _ p => p
  | .vFloat t => some t
  | .vList _ => none
  | .vOther => none

/-- `values = raw_value if isinstance(raw_value, list) else [raw_value]`. -/
def prepareValues : PyVal → List PyVal
  | .vList items => items
  | v => [v]

/-- `prepare_assignee_map(raw_map)`; `none` models a non-dict input. -/
def prepareAssigneeMap (raw : Option (List (RawKey × PyVal))) : List (String × List Int) :=
  match raw with
  | none => []
  | some entries =>
    entries.foldl (fun prepared entry =>
      match entry.1 with
      | .kOther => prepared
      | .kStr s =>
        let normalizedKey := normalizeName s
        if normalizedKey = "" then prepared
        else
          let assigneeIds := (prepareValues entry.2).filterMap itemToInt
          if assigneeIds = [] then prepared
          else assocSet normalizedKey assigneeIds prepared) []

/-! ## ClickUp payload construction (`build_clickup_payload`,
clickup_client.py:41-82) -/

/-- The raw `priority` field of a task dict: absent/None, an int, a string
(`asInt` is Python's `int(...)` parse outcome on it), or anything else. -/
inductive RawPriority
  | pNull
  | pInt (i : Int)
  | pStr (s : String) (asInt : Option Int)
  | pOther
deriving DecidableEq, Repr

/-- The fields of a task dict that `build_clickup_payload` reads.  `dueDate`
is the raw `due_date` value when it is a string (`epochMs` is the
`to_epoch_millis` result, `none` when that raises `ValueError`); `none`
covers an absent/None/non-string due date. -/
structure TaskRecord where
  name : Option String
  description : Option String
  priority : RawPriority
  dueDate : Option (String × Option Int)
deriving DecidableEq, Repr

/-- The payload dict sent to the ClickUp task-creation endpoint. -/
structure ClickupPayload where
  name : String
  description : String
  priority : Int
  assignees : Option (List Int)
  dueDateMs : Option Int
deriving DecidableEq, Repr

/-- `build_clickup_payload(task, default_priority, assignee_ids)`. -/
def buildClickupPayload (task : TaskRecord) (defaultPriority : Int)
    (assigneeIds : List Int) : ClickupPayload :=
  let name := match task.name with
    | some s => if s = "" then "Без названия" else s
    | none => "Без названия"
  let description := match task.description with
    | some s => s
    | none => ""
  let priorityRaw := match task.priority with
    | .pInt i => i
    | .pStr _ (some i) => i
    | .pStr _ none => defaultPriority
    | .pNull => defaultPriority
    | .pOther => defaultPriority
  let priority :=
    if priorityRaw = 1 ∨ priorityRaw = 2 ∨ priorityRaw = 3 ∨ priorityRaw = 4 then priorityRaw
    else defaultPriority
  { name := name
    description := description
    priority := priority
    assignees := if assigneeIds = [] then none else some assigneeIds
    dueDateMs := match task.dueDate with
      | some (s, ms) => if s = "" then none else ms
      | none => none }

/-- The raw priority values the claim calls "missing, non-numeric, or
outside {1,2,3,4}". -/
def rawPriorityInvalid : RawPriority → Prop
  | .pNull => True
  | .pOther => True
  | .pStr _ none => True
  | .pStr _ (some i) => ¬(i = 1 ∨ i = 2 ∨ i = 3 ∨ i = 4)
  | .pInt i => ¬(i = 1 ∨ i = 2 ∨ i = 3 ∨ i = 4)

/-! ## Member directory cache (`_load_member_cache`, `_save_member_cache`,
`fetch_clickup_member_map`, process_voice_messages.py:294-365, 626-693)

The cache file is modelled as a typed structure: the `lists` dict maps a
list id to either a valid record (a parseable `fetched_at` timestamp plus a
members dict of string keys and integer-id lists — exactly what
`_save_member_cache` writes) or a malformed record (anything
`_load_member_cache` rejects).  Time is in minutes so that the TTL
comparison `datetime.now() - fetched_at > timedelta(minutes=ttl)` becomes
integer arithmetic.  `_load_member_cache`'s per-element `int(...)` cleaning
is the identity on a record that `_save_member_cache` itself wrote, which is
the only kind of valid record the typed model stores. -/

/-- One record of the cache's `lists` dict. -/
inductive CacheEntry
  | valid (fetchedAt : Int) (members : List (String × List Int))
  | malformed
deriving DecidableEq

/-- The parsed cache file (`{"lists": {...}}`). -/
structure MemberCacheFile where
  lists : List (String × CacheEntry)
deriving DecidableEq

/-- `_load_member_cache(list_id, ttl_minutes)` at instant `now`; `none`
input models a missing or unreadable cache file. -/
def loadMemberCache (file : Option MemberCacheFile) (listId : String)
    (ttlMinutes now : Int) : Option (List (String × List Int)) :=
  if ttlMinutes ≤ 0 then none
  else
    match file with
    | none => none
    | some f =>
      match assocLookup listId f.lists with
      | some (.valid fetchedAt members) =>
        if ttlMinutes < now - fetchedAt then none else some members
      | some .malformed => none
      | none => none

/-- `_save_member_cache(list_id, members)` at instant `now`: re-read the
file (a read failure yields `{}`), overwrite only the record of `list_id`,
write back. -/
def saveMemberCache (file : Option MemberCacheFile) (listId : String)
    (members : List (String × List Int)) (now : Int) : MemberCacheFile :=
  let payload := file.getD ⟨[]⟩
  ⟨assocSet listId (.valid now members) payload.lists⟩

/-- The caching skeleton of `fetch_clickup_member_map`: a fresh cache hit is
returned with no network fetch; otherwise the member map is fetched and
built (`network` is that result) and persisted only when the TTL is
positive.  Returns (member map, network-fetch performed?, cache file
afterwards). -/
def fetchClickupMemberMap (file : Option MemberCacheFile) (listId : String)
    (ttlMinutes now : Int) (network : List (String × List Int)) :
    List (String × List Int) × Bool × Option MemberCacheFile :=
  match loadMemberCache file listId ttlMinutes now with
  | some cached => (cached, false, file)
  | none =>
    (network, true,
      if 0 < ttlMinutes then some (saveMemberCache file listId network now) else file)

/-! ## Due-date normalization (`normalize_due_date_value`,
process_voice_messages.py:487-538)

Python `date` objects are triples (year, month, day); every constructed
`date` is a real calendar date with year 1..9999 (`datetime.MINYEAR` /
`MAXYEAR`), compared lexicographically.  `date.isoformat()` renders
`%04d-%02d-%02d`, written here digit by digit — equal to the zero-padded
decimal rendering because year ≤ 9999 and month/day ≤ 99.  The strict
`ISO_DATE_RE` check and `strptime(text, "%Y-%m-%d")` are modelled over the
character list (ASCII digits; the input reaching the regex is already
stripped, and only 10-character `\d{4}-\d{2}-\d{2}` shapes pass). -/

/-- A Python `datetime.date`. -/
structure PyDate where
  year : Nat
  month : Nat
  day : Nat
deriving DecidableEq, Repr

/-- Gregorian leap year, as `calendar.isleap` / `datetime` use it. -/
def isLeapYear (y : Nat) : Bool := (y % 4 == 0 && y % 100 != 0) || y % 400 == 0

/-- Days in a month of a year. -/
def daysInMonth (y m : Nat) : Nat :=
  if m = 2 then if isLeapYear y then 29 else 28
  else if m = 4 ∨ m = 6 ∨ m = 9 ∨ m = 11 then 30
  else 31

/-- The dates `datetime.date` can represent. -/
def PyDate.valid (d : PyDate) : Bool :=
  decide (1 ≤ d.year) && decide (d.year ≤ 9999) && decide (1 ≤ d.month)
    && decide (d.month ≤ 12) && decide (1 ≤ d.day)
    && decide (d.day ≤ daysInMonth d.year d.month)

/-- `date.__lt__`: lexicographic on (year, month, day). -/
def PyDate.lt (a b : PyDate) : Bool :=
  decide (a.year < b.year)
    || (decide (a.year = b.year) && (decide (a.month < b.month)
    || (decide (a.month = b.month) && decide (a.day < b.day))))

/-- The ASCII digit character of `n` (for `n ≤ 9`). -/
def digitChar (n : Nat) : Char := Char.ofNat (48 + n)

/-- The numeric value of an ASCII digit character. -/
def digitVal (c : Char) : Nat := c.toNat - 48

/-- ASCII `\d`. -/
def isDigitChar (c : Char) : Bool := decide (48 ≤ c.toNat) && decide (c.toNat ≤ 57)

/-- Two-digit zero-padded rendering (`%02d` for values ≤ 99). -/
def pad2 (n : Nat) : List Char := [digitChar (n / 10 % 10), digitChar (n % 10)]

/-- Four-digit zero-padded rendering (`%04d` for values ≤ 9999). -/
def pad4 (n : Nat) : List Char :=
  [digitChar (n / 1000 % 10), digitChar (n / 100 % 10), digitChar (n / 10 % 10),
   digitChar (n % 10)]

/-- The characters of `date.isoformat()`. -/
def isoChars (d : PyDate) : List Char :=
  pad4 d.year ++ '-' :: (pad2 d.month ++ '-' :: pad2 d.day)

/-- `date.isoformat()`. -/
def PyDate.isoformat (d : PyDate) : String := String.mk (isoChars d)

/-- `ISO_DATE_RE.match(text)`: exactly `\d{4}-\d{2}-\d{2}`. -/
def isoDateReList : List Char → Bool
  | [y1, y2, y3, y4, h1, m1, m2, h2, d1, d2] =>
    isDigitChar y1 && isDigitChar y2 && isDigitChar y3 && isDigitChar y4
      && (h1 == '-') && isDigitChar m1 && isDigitChar m2 && (h2 == '-')
      && isDigitChar d1 && isDigitChar d2
  | _ => false

/-- `ISO_DATE_RE.match(text)` on a string. -/
def isoDateRe (s : String) : Bool := isoDateReList s.toList

/-- `datetime.strptime(text, "%Y-%m-%d").date()`: `none` models the
`ValueError` on a shape mismatch or a non-existent calendar date. -/
def parseIsoDateList : List Char → Option PyDate
  | [y1, y2, y3, y4, h1, m1, m2, h2, d1, d2] =>
    if isDigitChar y1 && isDigitChar y2 && isDigitChar y3 && isDigitChar y4
        && (h1 == '-') && isDigitChar m1 && isDigitChar m2 && (h2 == '-')
        && isDigitChar d1 && isDigitChar d2 then
      let d : PyDate :=
        ⟨((digitVal y1 * 10 + digitVal y2) * 10 + digitVal y3) * 10 + digitVal y4,
          digitVal m1 * 10 + digitVal m2,
          digitVal d1 * 10 + digitVal d2⟩
      if d.valid then some d else none
    else none
  | _ => none

/-- `strptime` on a string. -/
def parseIsoDate (s : String) : Option PyDate := parseIsoDateList s.toList

/-- The raw `due_date` value as seen by `normalize_due_date_value`:
* `null`: `None`;
* `strVal s relParsed`: a string; `relParsed` is the date (in the configured
  timezone) that `dateparser.parse` would produce for the stripped text,
  `none` when that parse fails — it is consulted only on non-ISO strings;
* `numVal tsDate`: an int/float timestamp, already converted by
  `datetime.fromtimestamp(..., tz).date()`;
* `listVal first`: a non-empty list/tuple and its first element (the code
  unwraps one level only);
* `otherVal`: anything else (dicts, empty lists, ...), which produces no
  candidate date. -/
inductive RawDueDate
  | null
  | strVal (s : String) (relParsed : Option PyDate)
  | numVal (tsDate : PyDate)
  | listVal (first : RawDueDate)
  | otherVal

/-- The body of `normalize_due_date_value` after the `None` check and the
one-level list unwrap: compute the candidate date, discard it when strictly
before today, otherwise return its ISO rendering. -/
def normalizeInner (v : RawDueDate) (today : PyDate) : Option String :=
  match v with
  | .strVal s rel =>
    let text := pyStrip s
    if text = "" then none
    else
      let candidate := if isoDateRe text then parseIsoDate text else rel
      match candidate with
      | none => none
      | some d => if d.lt today then none else some d.isoformat
  | .numVal d => if d.lt today then none else some d.isoformat
  | _ => none

/-- `normalize_due_date_value(raw_value, timezone_name)` at the instant
whose date in the configured timezone is `today`. -/
def normalizeDueDateValue (v : RawDueDate) (today : PyDate) : Option String :=
  match v with
  | .null => none
  | .listVal first => normalizeInner first today
  | other => normalizeInner other today

/-- The dates embedded in a raw value are real Python dates (dateparser and
`fromtimestamp` only ever produce valid `datetime` objects). -/
def rawDueValid : RawDueDate → Prop
  | .strVal _ (some d) => d.valid = true
  | .numVal d => d.valid = true
  | .listVal first => rawDueValid first
  | _ => True

/-! ## Assignee resolution (`resolve_assignee_ids`,
process_voice_messages.py:53-54, 590-623)

The two regexes are modelled as scanners over the character list:
* `COMBINED_CONJUNCTION_RE = \b(?:и\s*/\s*или|and\s*/\s*or)\b` (ignorecase),
  substituted by `" и "`;
* `ASSIGNEE_SPLIT_RE = [;,/&]|\b(?:и|and)\b` (ignorecase), used with
  `re.split`, which keeps empty fragments.
Python's `\w` (for `\b`) and case folding are full Unicode; the model covers
ASCII alphanumerics, underscore and the Cyrillic block — the alphabets this
resolver handles.  `\s` is modelled as ASCII whitespace, like `str.strip`.
Both scanners carry the previous character (`none` at string start) to
decide `\b`, and fuel bounded by the list length (every step consumes at
least one character, so the fuel never runs out). -/

/-- Python `\w`, restricted to ASCII alphanumerics, `_`, and the Cyrillic
block U+0400-U+04FF. -/
def isWordChar (c : Char) : Bool :=
  decide (48 ≤ c.toNat ∧ c.toNat ≤ 57)
  || decide (65 ≤ c.toNat ∧ c.toNat ≤ 90)
  || decide (97 ≤ c.toNat ∧ c.toNat ≤ 122)
  || (c == '_')
  || decide (0x400 ≤ c.toNat ∧ c.toNat ≤ 0x4FF)

/-- `\b` before a word character: start of string or a non-word character. -/
def boundaryBefore (prev : Option Char) : Bool :=
  match prev with
  | none => true
  | some p => !(isWordChar p)

/-- `\b` after a word character: end of string or a non-word character. -/
def afterOk : List Char → Bool
  | [] => true
  | c :: _ => !(isWordChar c)

/-- Case-insensitive match of a lowercase literal; returns the rest. -/
def matchLit : List Char → List Char → Option (List Char)
  | [], l => some l
  | _ :: _, [] => none
  | t :: ts, c :: l => if pyLowerChar c == t then matchLit ts l else none

/-- `\s*`. -/
def skipSpaces (l : List Char) : List Char := l.dropWhile isPySpace

/-- Try `(?:и\s*/\s*или|and\s*/\s*or)\b` at the head of `l` (the `\b` before
the match is checked by the caller); returns the rest after the match. -/
def matchCombinedAt (l : List Char) : Option (List Char) :=
  let branch1 :=
    match matchLit ['и'] l with
    | some r1 =>
      match skipSpaces r1 with
      | '/' :: r3 =>
        match matchLit ['и', 'л', 'и'] (skipSpaces r3) with
        | some r5 => if afterOk r5 then some r5 else none
        | none => none
      | _ => none
    | none => none
  match branch1 with
  | some r => some r
  | none =>
    match matchLit ['a', 'n', 'd'] l with
    | some r1 =>
      match skipSpaces r1 with
      | '/' :: r3 =>
        match matchLit ['o', 'r'] (skipSpaces r3) with
        | some r5 => if afterOk r5 then some r5 else none
        | none => none
      | _ => none
    | none => none

/-- `COMBINED_CONJUNCTION_RE.sub(" и ", ...)`: left-to-right scan, replacing
each non-overlapping match with `" и "`. -/
def subCombinedAux : Nat → Option Char → List Char → List Char
  | 0, _, l => l
  | _, _, [] => []
  | fuel + 1, prev, c :: rest =>
    if boundaryBefore prev then
      match matchCombinedAt (c :: rest) with
      | some r =>
        ' ' :: 'и' :: ' ' ::
          subCombinedAux fuel (((c :: rest).take ((c :: rest).length - r.length)).getLast?) r
      | none => c :: subCombinedAux fuel (some c) rest
    else c :: subCombinedAux fuel (some c) rest

/-- `COMBINED_CONJUNCTION_RE.sub(" и ", s)`. -/
def subCombined (s : String) : String :=
  String.mk (subCombinedAux s.toList.length none s.toList)

/-- Try `[;,/&]|\b(?:и|and)\b` at the head of `l`; returns the last matched
character (the `\b` context for what follows) and the rest. -/
def matchSplitTokAt (prev : Option Char) (l : List Char) : Option (Char × List Char) :=
  match l with
  | [] => none
  | c :: rest =>
    if c == ';' || c == ',' || c == '/' || c == '&' then some (c, rest)
    else if boundaryBefore prev then
      if pyLowerChar c == 'и' && afterOk rest then some (c, rest)
      else
        match l with
        | a :: n :: d :: rest2 =>
          if pyLowerChar a == 'a' && pyLowerChar n == 'n' && pyLowerChar d == 'd'
              && afterOk rest2 then some (d, rest2)
          else none
        | _ => none
    else none

/-- `ASSIGNEE_SPLIT_RE.split(...)`: fragments between matches, empty
fragments kept (the current fragment is accumulated in reverse). -/
def splitAssigneeAux : Nat → Option Char → List Char → List Char → List (List Char)
  | 0, _, acc, l => [acc.reverse ++ l]
  | _, _, acc, [] => [acc.reverse]
  | fuel + 1, prev, acc, c :: rest =>
    match matchSplitTokAt prev (c :: rest) with
    | some (lastc, r) => acc.reverse :: splitAssigneeAux fuel (some lastc) [] r
    | none => splitAssigneeAux fuel (some c) (c :: acc) rest

/-- `ASSIGNEE_SPLIT_RE.split(s)`. -/
def splitAssignee (l : List Char) : List (List Char) := splitAssigneeAux l.length none [] l

/-- An element of a list-valued `assignee` field: only strings are used. -/
inductive AssigneeItem
  | strI (s : String)
  | otherI

/-- The raw `assignee` value: a string, a list, or anything falsy/other. -/
inductive AssigneeValue
  | strV (s : String)
  | listV (items : List AssigneeItem)
  | noneV

/-- `not assignee_value` (falsy: `None`, `""`, `[]`). -/
def assigneeFalsy : AssigneeValue → Bool
  | .strV s => s == ""
  | .listV items => items.isEmpty
  | .noneV => true

/-- The candidate list built by `resolve_assignee_ids`: for a string, the
whole original string followed by every stripped non-empty fragment of the
split of the conjunction-normalized text; for a list, its string elements. -/
def candidatesOf : AssigneeValue → List String
  | .strV s =>
    s :: (((splitAssignee (subCombined s).toList).map
      (fun part => pyStrip (String.mk part))).filter (fun part => part != ""))
  | .listV items =>
    items.filterMap (fun it => match it with | .strI s => some s | .otherI => none)
  | .noneV => []

/-- `alias_map.get(normalized, normalized) if alias_map else normalized`. -/
def aliasKeyOf (aliasMap : List (String × String)) (normalized : String) : String :=
  if aliasMap.isEmpty then normalized
  else
    match assocLookup normalized aliasMap with
    | some canonical => canonical
    | none => normalized

/-- `if member_id not in resolved: resolved.append(member_id)`. -/
def appendUnique (res : List Int) (mid : Int) : List Int :=
  if mid ∈ res then res else res ++ [mid]

/-- One loop body of `resolve_assignee_ids` for one candidate. -/
def resolveStep (assigneeMap : List (String × List Int)) (aliasMap : List (String × String))
    (resolved : List Int) (candidate : String) : List Int :=
  let normalized := normalizeName candidate
  if normalized = "" then resolved
  else
    match assocLookup (aliasKeyOf aliasMap normalized) assigneeMap with
    | none => resolved
    | some ids =>
      if ids = [] then resolved
      else ids.foldl appendUnique resolved

/-- `resolve_assignee_ids(assignee_value, assignee_map, alias_map)`; the
empty alias map stands for both `None` and `{}` (both falsy). -/
def resolveAssigneeIds (value : AssigneeValue) (assigneeMap : List (String × List Int))
    (aliasMap : List (String × String)) : List Int :=
  if assigneeFalsy value || assigneeMap.isEmpty then []
  else (candidatesOf value).foldl (resolveStep assigneeMap aliasMap) []

/-! ## Theorems

Proofs of the specification claims C1-C10 together with their supporting
lemmas, in the order of the components above. -/

theorem retryLoop_count_le (op : Nat → Except E A) (fuel attempt : Nat) :
    (retryLoop op fuel attempt).2 ≤ attempt + fuel := by
  induction fuel generalizing attempt with
  | zero => cases h : op attempt <;> simp [retryLoop, h]
  | succ f ih =>
    cases h : op attempt with
    | ok a => simp [retryLoop, h]
    | error e =>
      have := ih (attempt + 1)
      simp only [retryLoop, h]
      omega

theorem retryLoop_count_pos (op : Nat → Except E A) (fuel attempt : Nat) :
    attempt ≤ (retryLoop op fuel attempt).2 := by
  induction fuel generalizing attempt with
  | zero => cases h : op attempt <;> simp [retryLoop, h]
  | succ f ih =>
    cases h : op attempt with
    | ok a => simp [retryLoop, h]
    | error e =>
      have := ih (attempt + 1)
      simp only [retryLoop, h]
      omega

theorem retryLoop_all_fail (op : Nat → Except E A) (e : E)
    (h : ∀ k, op k = .error e) (fuel attempt : Nat) :
    retryLoop op fuel attempt = (.error e, attempt + fuel) := by
  induction fuel generalizing attempt with
  | zero => simp [retryLoop, h attempt]
  | succ f ih => simp [retryLoop, h attempt, ih (attempt + 1)]; omega

/-- **C2.** For every operation and every `maxAttempts ≥ 1`, `_execute_with_retry`
invokes the operation at most `maxAttempts` times; an operation failing on its
first two invocations and succeeding on the third, under `maxAttempts = 5`,
returns that success after exactly 3 invocations; an operation failing on every
invocation with error `e`, under `maxAttempts = 2`, raises `e` unchanged after
exactly 2 invocations. -/
theorem C2_execute_with_retry {E A : Type} (op : Nat → Except E A) (maxAttempts : Int)
    (hA : 1 ≤ maxAttempts) :
    ((executeWithRetry op maxAttempts).2 : Int) ≤ maxAttempts
    ∧ (∀ (a : A) (e₁ e₂ : E), op 1 = .error e₁ → op 2 = .error e₂ → op 3 = .ok a →
        executeWithRetry op 5 = (.ok a, 3))
    ∧ (∀ e : E, (∀ k, op k = .error e) → executeWithRetry op 2 = (.error e, 2)) := by
  refine ⟨?_, ?_, ?_⟩
  · have h1 := retryLoop_count_le op ((max 1 maxAttempts).toNat - 1) 1
    rw [max_eq_right hA] at h1
    unfold executeWithRetry
    rw [max_eq_right hA]
    omega
  · intro a e₁ e₂ h₁ h₂ h₃
    have hfuel : ((max 1 (5 : Int)).toNat - 1) = 4 := by decide
    unfold executeWithRetry
    rw [hfuel]
    simp [retryLoop, h₁, h₂, h₃]
  · intro e h
    have hfuel : ((max 1 (2 : Int)).toNat - 1) = 1 := by decide
    unfold executeWithRetry
    rw [hfuel]
    exact retryLoop_all_fail op e h 1 1

/-- Witness for C2: the flaky operation of the repository's own retry test
(fails on attempts 1 and 2, succeeds on attempt 3) returns the success after
exactly 3 invocations under `maxAttempts = 5`. -/
theorem C2_execute_with_retry_witness :
    executeWithRetry (fun k => if k < 3 then (.error "boom" : Except String Nat) else .ok 42) 5
      = (.ok 42, 3) :=
  (C2_execute_with_retry (fun k => if k < 3 then (.error "boom" : Except String Nat) else .ok 42)
      5 (by norm_num)).2.1 42 "boom" "boom" rfl rfl rfl

theorem rwrAux_error_final (outcomes : Nat → HttpOutcome) (fuel attempt : Nat) (e : ReqError)
    (h : (rwrAux outcomes fuel attempt).1 = .error e) :
    (rwrAux outcomes fuel attempt).2 = attempt + fuel := by
  induction fuel generalizing attempt with
  | zero =>
    cases ho : outcomes attempt with
    | transport => simp [rwrAux, ho]
    | status c =>
      simp only [rwrAux, ho]
      split <;> rfl
  | succ f ih =>
    cases ho : outcomes attempt with
    | transport =>
      simp only [rwrAux, ho] at h ⊢
      rw [ih (attempt + 1) h]; omega
    | status c =>
      simp only [rwrAux, ho] at h ⊢
      by_cases hm : c ∈ retryableStatusCodes
      · rw [if_pos hm] at h ⊢
        rw [ih (attempt + 1) h]; omega
      · rw [if_neg hm] at h ⊢
        by_cases hc : 400 ≤ c
        · rw [if_pos hc] at h ⊢
          rw [ih (attempt + 1) h]; omega
        · rw [if_neg hc] at h
          simp at h

theorem rwrAux_count_le (outcomes : Nat → HttpOutcome) (fuel attempt : Nat) :
    (rwrAux outcomes fuel attempt).2 ≤ attempt + fuel := by
  induction fuel generalizing attempt with
  | zero =>
    cases ho : outcomes attempt with
    | transport => simp [rwrAux, ho]
    | status c =>
      simp only [rwrAux, ho]
      split <;> simp
  | succ f ih =>
    cases ho : outcomes attempt with
    | transport =>
      simp only [rwrAux, ho]
      have := ih (attempt + 1); omega
    | status c =>
      simp only [rwrAux, ho]
      split
      · have := ih (attempt + 1); omega
      · split
        · have := ih (attempt + 1); omega
        · simp

theorem parseRetryAfter_isSome {v : RetryAfterHeader} (h : v ≠ .numericInf) (d : Int) :
    ∃ n, parseRetryAfter v d = some n ∧ (0 ≤ d → 0 ≤ n) := by
  cases v with
  | missing => exact ⟨d, rfl, fun hd => hd⟩
  | unparseable => exact ⟨d, rfl, fun hd => hd⟩
  | numericNegInf => exact ⟨d, rfl, fun hd => hd⟩
  | numericNan => exact ⟨d, rfl, fun hd => hd⟩
  | numericInf => exact absurd rfl h
  | numeric s =>
    by_cases hs : s < 0
    · exact ⟨d, by simp [parseRetryAfter, hs], fun hd => hd⟩
    · exact ⟨⌈s⌉, by simp [parseRetryAfter, hs],
        fun _ => Int.ceil_nonneg (le_of_not_lt hs)⟩
  | httpDate t =>
    by_cases ht : t ≤ 0
    · exact ⟨d, by simp [parseRetryAfter, ht], fun hd => hd⟩
    · exact ⟨⌈t⌉, by simp [parseRetryAfter, ht],
        fun _ => Int.ceil_nonneg (le_of_lt (lt_of_not_le ht))⟩

/-- **C3 (counterexample).** The claim says every task-creation call goes
through the HTTP retry policy, which retries transient statuses such as 500
while attempts remain.  In the code, `create_clickup_task` issues its own
requests: on a first-attempt 500 it raises immediately after a single
request, while `_request_with_retries` on the same outcome trace (500 then
200) would have retried and succeeded on the second request. -/
theorem C3_counterexample :
    createClickupTask (fun i => if i = 0 then .status 500 else .status 200) (fun _ => .missing)
        = (.error (.httpError 500), 1, [])
    ∧ requestWithRetries (fun i => if i = 1 then .status 500 else .status 200) 4 = (.ok 200, 2) :=
  ⟨rfl, rfl⟩

/-- **C3 (amended).** External task creation (`create_clickup_task`) uses its
own 4-attempt loop that retries only on status 429, raising immediately (after
the current attempt) on any other error status and on transport errors, and
raising 429 after the 4th attempt when every response is a 429 (with
parseable wait hints).  The
transient-set HTTP retry policy (`_request_with_retries`) — used for the
Telegram and member-directory calls — retries on transport errors and on each
status of {408, 425, 429, 500, 502, 503, 504} while attempts remain, and
raises only after the final attempt fails. -/
theorem C3_task_creation_retry :
    (∀ (outcomes : Nat → HttpOutcome) (headers : Nat → RetryAfterHeader) (c : Nat),
        400 ≤ c → c ≠ 429 → outcomes 0 = .status c →
        createClickupTask outcomes headers = (.error (.httpError c), 1, []))
    ∧ (∀ (outcomes : Nat → HttpOutcome) (headers : Nat → RetryAfterHeader),
        outcomes 0 = .transport →
        createClickupTask outcomes headers = (.error .transportErr, 1, []))
    ∧ (∀ (outcomes : Nat → HttpOutcome) (headers : Nat → RetryAfterHeader),
        (∀ k, outcomes k = .status 429) → (∀ k, headers k ≠ .numericInf) →
        (createClickupTask outcomes headers).1 = .error (.httpError 429)
          ∧ (createClickupTask outcomes headers).2.1 = 4)
    ∧ (∀ (outcomes : Nat → HttpOutcome) (fuel attempt : Nat),
        (outcomes attempt = .transport
          ∨ ∃ c ∈ retryableStatusCodes, outcomes attempt = .status c) →
        rwrAux outcomes (fuel + 1) attempt = rwrAux outcomes fuel (attempt + 1))
    ∧ (∀ (outcomes : Nat → HttpOutcome) (maxAttempts : Nat) (e : ReqError), 1 ≤ maxAttempts →
        (requestWithRetries outcomes maxAttempts).1 = .error e →
        (requestWithRetries outcomes maxAttempts).2 = maxAttempts) := by
  refine ⟨?_, ?_, ?_, ?_, ?_⟩
  · intro outcomes headers c hc hne h0
    simp [createClickupTask, cctAux, h0, hne, hc]
  · intro outcomes headers h0
    simp [createClickupTask, cctAux, h0]
  · intro outcomes headers h hinf
    obtain ⟨r0, hr0⟩ := parseRetryAfter_isSome (hinf 0) 2
    obtain ⟨r1, hr1⟩ := parseRetryAfter_isSome (hinf 1) 2
    obtain ⟨r2, hr2⟩ := parseRetryAfter_isSome (hinf 2) 2
    simp [createClickupTask, cctAux, h 0, h 1, h 2, h 3, hr0.1, hr1.1, hr2.1]
  · intro outcomes fuel attempt h
    rcases h with h | ⟨c, hc, h⟩
    · simp [rwrAux, h]
    · simp [rwrAux, h, hc]
  · intro outcomes maxAttempts e h1 herr
    have := rwrAux_error_final outcomes (maxAttempts - 1) 1 e herr
    unfold requestWithRetries at this ⊢
    omega

/-- Witness for C3 (amended): a 404 on the first attempt makes task creation
raise immediately after a single request. -/
theorem C3_task_creation_retry_witness :
    createClickupTask (fun i => if i = 0 then .status 404 else .status 200) (fun _ => .missing)
      = (.error (.httpError 404), 1, []) :=
  C3_task_creation_retry.1 (fun i => if i = 0 then .status 404 else .status 200)
    (fun _ => .missing) 404 (by norm_num) (by norm_num) rfl

/-- **C4 (counterexample).** The claim says the parsed wait hint is always a
positive integer number of seconds and the parser never raises.  A
`Retry-After` value of `"0"` parses to `ceil(0.0) = 0` seconds, which is not
positive; and a value of `"inf"` makes `ceil(inf)` raise `OverflowError`,
which the surrounding `except (TypeError, ValueError)` does not catch, so
the parser raises. -/
theorem C4_counterexample :
    parseRetryAfter (.numeric 0) 2 = some 0 ∧ parseRetryAfter .numericInf 2 = none := by
  constructor
  · norm_num [parseRetryAfter]
  · rfl

/-- **C4 (amended).** For every wait-hint input other than a float-infinity
value, `_parse_retry_after` returns (without raising) a non-negative integer
number of seconds — positive unless the hint is the exact numeric value 0;
missing, unparseable, NaN and negative-infinity hints all substitute the
non-negative default (2 seconds at the call site); a positive-infinity hint
raises an uncaught `OverflowError`; and the exponential factor `2 ** attempt`
is layered on top of the parsed hint in the sleep before each 429 retry. -/
theorem C4_retry_after_total (v : RetryAfterHeader) (d : Int) (hd : 0 ≤ d) :
    (v ≠ .numericInf → ∃ n, parseRetryAfter v d = some n ∧ 0 ≤ n)
    ∧ (∀ n, parseRetryAfter v 2 = some n → (0 < n ↔ v ≠ .numeric 0))
    ∧ parseRetryAfter .unparseable d = some d ∧ parseRetryAfter .missing d = some d
    ∧ parseRetryAfter .numericNan d = some d ∧ parseRetryAfter .numericNegInf d = some d
    ∧ parseRetryAfter .numericInf d = none
    ∧ (∀ (outcomes : Nat → HttpOutcome) (headers : Nat → RetryAfterHeader)
        (r0 r1 r2 : Int), (∀ k, outcomes k = .status 429) →
        parseRetryAfter (headers 0) = some r0 → parseRetryAfter (headers 1) = some r1 →
        parseRetryAfter (headers 2) = some r2 →
        (createClickupTask outcomes headers).2.2 = [r0, r1 * 2, r2 * 4]) := by
  refine ⟨?_, ?_, rfl, rfl, rfl, rfl, rfl, ?_⟩
  · intro hv
    obtain ⟨n, hn, hpos⟩ := parseRetryAfter_isSome hv d
    exact ⟨n, hn, hpos hd⟩
  · intro n hn
    cases v with
    | missing =>
      simp only [parseRetryAfter, Option.some.injEq] at hn
      subst hn
      simp
    | unparseable =>
      simp only [parseRetryAfter, Option.some.injEq] at hn
      subst hn
      simp
    | numericNan =>
      simp only [parseRetryAfter, Option.some.injEq] at hn
      subst hn
      simp
    | numericNegInf =>
      simp only [parseRetryAfter, Option.some.injEq] at hn
      subst hn
      simp
    | numericInf => exact absurd hn (by simp [parseRetryAfter])
    | numeric s =>
      by_cases hs : s < 0
      · rw [show parseRetryAfter (.numeric s) 2 = some 2 by simp [parseRetryAfter, hs]] at hn
        injection hn with hn
        subst hn
        simp only [ne_eq, RetryAfterHeader.numeric.injEq]
        constructor
        · intro _ h
          exact ne_of_lt hs h
        · intro _
          norm_num
      · rw [show parseRetryAfter (.numeric s) 2 = some ⌈s⌉ by
            simp [parseRetryAfter, hs]] at hn
        injection hn with hn
        subst hn
        simp only [ne_eq, RetryAfterHeader.numeric.injEq]
        rcases eq_or_lt_of_le (le_of_not_lt hs) with h0 | hpos
        · rw [← h0]
          simp
        · constructor
          · intro _ h
            exact hpos.ne' h
          · intro _
            exact Int.ceil_pos.mpr hpos
    | httpDate t =>
      by_cases ht : t ≤ 0
      · rw [show parseRetryAfter (.httpDate t) 2 = some 2 by simp [parseRetryAfter, ht]] at hn
        injection hn with hn
        subst hn
        simp
      · rw [show parseRetryAfter (.httpDate t) 2 = some ⌈t⌉ by
            simp [parseRetryAfter, ht]] at hn
        injection hn with hn
        subst hn
        simp only [ne_eq]
        constructor
        · intro _
          simp
        · intro _
          exact Int.ceil_pos.mpr (lt_of_not_le ht)
  · intro outcomes headers r0 r1 r2 h h0 h1 h2
    simp [createClickupTask, cctAux, h 0, h 1, h 2, h 3, h0, h1, h2, clickupBackoff, pow_succ]

/-- Witness for C4: an HTTP-date hint 2.5 seconds in the future parses
without raising to a positive wait of `ceil(2.5) = 3` seconds. -/
theorem C4_retry_after_witness :
    (0 < (3 : Int)) ↔ (RetryAfterHeader.httpDate (5 / 2) ≠ .numeric 0) :=
  (C4_retry_after_total (.httpDate (5 / 2)) 2 (by norm_num)).2.1 3 (by
    have hceil : (⌈(5 / 2 : ℚ)⌉ : Int) = 3 := by
      rw [Int.ceil_eq_iff]
      norm_num
    simp [parseRetryAfter, hceil])

theorem listMaxAux_mem (cur : Int) (l : List Int) :
    listMaxAux cur l = cur ∨ listMaxAux cur l ∈ l := by
  induction l generalizing cur with
  | nil => left; rfl
  | cons i rest ih =>
    rcases ih (max cur i) with h | h
    · rcases max_cases cur i with ⟨he, _⟩ | ⟨he, _⟩
      · left; rw [listMaxAux, h, he]
      · right; rw [listMaxAux, h, he]; exact List.mem_cons_self i rest
    · right
      exact List.mem_cons_of_mem i (by rw [listMaxAux]; exact h)

theorem maxVoiceUpdateId_mem {l : List Int} {m : Int} (h : maxVoiceUpdateId l = some m) :
    m ∈ l := by
  cases l with
  | nil => simp [maxVoiceUpdateId] at h
  | cons i rest =>
    simp only [maxVoiceUpdateId, Option.some.injEq] at h
    rcases listMaxAux_mem i rest with h' | h'
    · rw [← h, h']; exact List.mem_cons_self i rest
    · rw [← h]; exact List.mem_cons_of_mem i h'

theorem tgMaxUpdateId_src (updates : List TgUpdate) :
    ∀ (acc : Option Int) (m : Int), tgMaxUpdateId acc updates = some m →
      acc = some m ∨ ∃ u ∈ updates, u.updateId = some m := by
  induction updates with
  | nil => intro acc m h; left; exact h
  | cons u rest ih =>
    intro acc m h
    rw [tgMaxUpdateId] at h
    cases hu : u.updateId with
    | none =>
      rw [hu] at h
      simp only [accMaxId] at h
      rcases ih acc m h with h' | ⟨u', hu', hid⟩
      · left; exact h'
      · right; exact ⟨u', List.mem_cons_of_mem u hu', hid⟩
    | some i =>
      rw [hu] at h
      cases hacc : acc with
      | none =>
        rw [hacc] at h
        simp only [accMaxId] at h
        rcases ih (some i) m h with h' | ⟨u', hu', hid⟩
        · right
          refine ⟨u, List.mem_cons_self u rest, ?_⟩
          rw [hu, h']
        · right; exact ⟨u', List.mem_cons_of_mem u hu', hid⟩
      | some a =>
        rw [hacc] at h
        simp only [accMaxId] at h
        rcases ih (some (max a i)) m h with h' | ⟨u', hu', hid⟩
        · rw [Option.some.injEq] at h'
          rcases max_cases a i with ⟨he, _⟩ | ⟨he, _⟩
          · left; rw [← h', he]
          · right
            refine ⟨u, List.mem_cons_self u rest, ?_⟩
            rw [hu, ← h', he]
        · right; exact ⟨u', List.mem_cons_of_mem u hu', hid⟩

theorem tgMaxUpdateId_ge (updates : List TgUpdate) :
    ∀ (n : Int), ∃ m, tgMaxUpdateId (some n) updates = some m ∧ n ≤ m := by
  induction updates with
  | nil => intro n; exact ⟨n, rfl, le_refl n⟩
  | cons u rest ih =>
    intro n
    rw [tgMaxUpdateId]
    cases hu : u.updateId with
    | none => simpa only [accMaxId] using ih n
    | some i =>
      simp only [accMaxId]
      rcases ih (max n i) with ⟨m, hm, hle⟩
      exact ⟨m, hm, le_trans (le_max_left n i) hle⟩

theorem voiceMessagesOf_subset (updates : List TgUpdate) (limit : Option Int) :
    ∀ u ∈ voiceMessagesOf updates limit, u ∈ updates := by
  intro u hu
  cases limit with
  | none =>
    simp only [voiceMessagesOf] at hu
    exact List.mem_of_mem_filter hu
  | some n =>
    simp only [voiceMessagesOf] at hu
    by_cases hn : 0 ≤ n
    · rw [if_pos hn] at hu
      exact List.mem_of_mem_filter (List.take_subset _ _ hu)
    · rw [if_neg hn] at hu
      exact List.mem_of_mem_filter hu

/-- Single-run cursor facts, under the `getUpdates` offset contract. -/
theorem runOnceCursorState_step (last : Option Int) (updates : List TgUpdate)
    (limit : Option Int)
    (H : ∀ u ∈ updates, ∀ i, u.updateId = some i → ∀ n, last = some n → n < i) :
    (∀ n, last = some n → ∃ m, (runOnceCursorState last updates limit).1 = some m ∧ n ≤ m)
    ∧ ((runOnceCursorState last updates limit).2 = true →
        last = none
          ∨ ∃ n m, last = some n ∧ (runOnceCursorState last updates limit).1 = some m ∧ n < m) := by
  have hsrc : ∀ m, stateUpdateIdOf last updates limit = some m →
      last = some m ∨ ∃ u ∈ updates, u.updateId = some m := by
    intro m hm
    unfold stateUpdateIdOf at hm
    cases hp : maxVoiceUpdateId ((voiceMessagesOf updates limit).filterMap (·.updateId)) with
    | some p =>
      rw [hp, Option.some.injEq] at hm
      subst hm
      have hmem := maxVoiceUpdateId_mem hp
      rcases List.mem_filterMap.mp hmem with ⟨u, hu, hid⟩
      exact Or.inr ⟨u, voiceMessagesOf_subset updates limit u hu, hid⟩
    | none =>
      rw [hp] at hm
      exact tgMaxUpdateId_src updates last m hm
  have hge : ∀ n, last = some n →
      ∃ m, stateUpdateIdOf last updates limit = some m ∧ n ≤ m := by
    intro n hn
    unfold stateUpdateIdOf
    cases hp : maxVoiceUpdateId ((voiceMessagesOf updates limit).filterMap (·.updateId)) with
    | some p =>
      refine ⟨p, rfl, ?_⟩
      have hmem := maxVoiceUpdateId_mem hp
      rcases List.mem_filterMap.mp hmem with ⟨u, hu, hid⟩
      exact le_of_lt (H u (voiceMessagesOf_subset updates limit u hu) p hid n hn)
    | none =>
      subst hn
      exact tgMaxUpdateId_ge updates n
  constructor
  · intro n hn
    subst hn
    rcases hge n rfl with ⟨m, hm, hle⟩
    unfold runOnceCursorState
    by_cases hc : stateUpdateIdOf (some n) updates limit ≠ none
        ∧ stateUpdateIdOf (some n) updates limit ≠ some n
    · rw [if_pos hc]
      exact ⟨m, hm, hle⟩
    · rw [if_neg hc]
      exact ⟨n, rfl, le_refl n⟩
  · intro hpers
    unfold runOnceCursorState at hpers ⊢
    by_cases hc : stateUpdateIdOf last updates limit ≠ none
        ∧ stateUpdateIdOf last updates limit ≠ last
    · rw [if_pos hc]
      cases hlast : last with
      | none => exact Or.inl rfl
      | some n =>
        subst hlast
        rcases hge n rfl with ⟨m, hm, hle⟩
        refine Or.inr ⟨n, m, rfl, hm, ?_⟩
        rcases lt_or_eq_of_le hle with h | h
        · exact h
        · exfalso
          apply hc.2
          rw [hm, h]
    · rw [if_neg hc] at hpers
      simp at hpers

/-- **C1.** Under the `getUpdates` offset contract (every returned update id
exceeds the stored cursor), one run persists the cursor only when the newly
computed update id exceeds the previously stored one (or no id was stored);
a stored cursor never decreases within a run; and across two sequential runs
the stored cursor value never decreases. -/
theorem C1_cursor_monotone (last : Option Int) (u1 u2 : List TgUpdate) (l1 l2 : Option Int)
    (h1 : ∀ u ∈ u1, ∀ i, u.updateId = some i → ∀ n, last = some n → n < i)
    (h2 : ∀ u ∈ u2, ∀ i, u.updateId = some i → ∀ n,
        (runOnceCursorState last u1 l1).1 = some n → n < i) :
    ((runOnceCursorState last u1 l1).2 = true →
      last = none ∨ ∃ n m, last = some n ∧ (runOnceCursorState last u1 l1).1 = some m ∧ n < m)
    ∧ (∀ n, last = some n → ∃ m, (runOnceCursorState last u1 l1).1 = some m ∧ n ≤ m)
    ∧ (∀ n m, last = some n →
        (runOnceCursorState (runOnceCursorState last u1 l1).1 u2 l2).1 = some m → n ≤ m) := by
  obtain ⟨hge1, hpers1⟩ := runOnceCursorState_step last u1 l1 h1
  refine ⟨hpers1, hge1, ?_⟩
  intro n m hn hm
  rcases hge1 n hn with ⟨k, hk, hnk⟩
  obtain ⟨hge2, _⟩ := runOnceCursorState_step (runOnceCursorState last u1 l1).1 u2 l2 h2
  rcases hge2 k hk with ⟨m', hm', hkm⟩
  rw [hm] at hm'
  rw [Option.some.injEq] at hm'
  subst hm'
  exact le_trans hnk hkm

/-- Witness for C1: cursor stored at 5, a run sees voice update 7, a second
run sees voice update 9; the cursor ends at 9 ≥ 5. -/
theorem C1_cursor_monotone_witness :
    (runOnceCursorState (runOnceCursorState (some 5) [⟨some 7, true⟩] none).1
        [⟨some 9, true⟩] none).1 = some 9
    ∧ (5 : Int) ≤ 9 := by
  have h1 : ∀ u ∈ [(⟨some 7, true⟩ : TgUpdate)], ∀ i, u.updateId = some i →
      ∀ n, (some 5 : Option Int) = some n → n < i := by
    intro u hu i hi n hn
    rw [List.mem_singleton] at hu
    subst hu
    simp only [Option.some.injEq] at hi hn
    omega
  have hfst : (runOnceCursorState (some 5) [⟨some 7, true⟩] none).1 = some 7 := by decide
  have h2 : ∀ u ∈ [(⟨some 9, true⟩ : TgUpdate)], ∀ i, u.updateId = some i →
      ∀ n, (runOnceCursorState (some 5) [⟨some 7, true⟩] none).1 = some n → n < i := by
    intro u hu i hi n hn
    rw [List.mem_singleton] at hu
    subst hu
    rw [hfst] at hn
    simp only [Option.some.injEq] at hi hn
    omega
  have hsnd : (runOnceCursorState (runOnceCursorState (some 5) [⟨some 7, true⟩] none).1
      [⟨some 9, true⟩] none).1 = some 9 := by decide
  exact ⟨hsnd,
    (C1_cursor_monotone (some 5) [⟨some 7, true⟩] [⟨some 9, true⟩] none none h1 h2).2.2 5 9
      rfl hsnd⟩

theorem assocLookup_assocSet_self (k : String) (v : α) (l : List (String × α)) :
    assocLookup k (assocSet k v l) = some v := by
  induction l with
  | nil => simp [assocSet, assocLookup]
  | cons p rest ih =>
    by_cases hp : p.1 = k
    · simp [assocSet, hp, assocLookup]
    · simp [assocSet, hp, assocLookup, ih]

theorem assocLookup_assocSet_ne (k k' : String) (v : α) (l : List (String × α))
    (hne : k' ≠ k) : assocLookup k' (assocSet k v l) = assocLookup k' l := by
  have hkk : ¬ k = k' := fun h => hne h.symm
  induction l with
  | nil => simp [assocSet, assocLookup, hkk]
  | cons p rest ih =>
    by_cases hp : p.1 = k
    · simp [assocSet, assocLookup, hp, hkk]
    · simp [assocSet, assocLookup, hp, ih]

theorem assocSet_mem (k : String) (v : α) (l : List (String × α)) :
    ∀ p ∈ assocSet k v l, p ∈ l ∨ p = (k, v) := by
  induction l with
  | nil => intro p hp; right; simpa [assocSet] using hp
  | cons q rest ih =>
    intro p hp
    by_cases hq : q.1 = k
    · simp only [assocSet, hq, if_true] at hp
      rcases List.mem_cons.mp hp with h | h
      · right; exact h
      · left; exact List.mem_cons_of_mem q h
    · simp only [assocSet, hq, if_false] at hp
      rcases List.mem_cons.mp hp with h | h
      · left; rw [h]; exact List.mem_cons_self q rest
      · rcases ih p h with h' | h'
        · left; exact List.mem_cons_of_mem q h'
        · right; exact h'

theorem prepareAssigneeMap_fold_invariant (entries : List (RawKey × PyVal)) :
    ∀ (acc : List (String × List Int)), (∀ p ∈ acc, p.2 ≠ []) →
      ∀ p ∈ entries.foldl (fun prepared entry =>
        match entry.1 with
        | .kOther => prepared
        | .kStr s =>
          let normalizedKey := normalizeName s
          if normalizedKey = "" then prepared
          else
            let assigneeIds := (prepareValues entry.2).filterMap itemToInt
            if assigneeIds = [] then prepared
            else assocSet normalizedKey assigneeIds prepared) acc, p.2 ≠ [] := by
  induction entries with
  | nil => intro acc hacc p hp; exact hacc p hp
  | cons e rest ih =>
    intro acc hacc p hp
    rw [List.foldl_cons] at hp
    refine ih _ ?_ p hp
    intro q hq
    cases he : e.1 with
    | kOther =>
      rw [he] at hq
      exact hacc q hq
    | kStr s =>
      rw [he] at hq
      simp only at hq
      by_cases hk : normalizeName s = ""
      · rw [if_pos hk] at hq
        exact hacc q hq
      · rw [if_neg hk] at hq
        by_cases hi : (prepareValues e.2).filterMap itemToInt = []
        · rw [if_pos hi] at hq
          exact hacc q hq
        · rw [if_neg hi] at hq
          rcases assocSet_mem _ _ acc q hq with h | h
          · exact hacc q h
          · rw [h]; exact hi

/-- **C10.** Every value of the prepared assignee map is a non-empty list of
integers: an entry whose id list is empty after dropping non-integer
elements is removed entirely, so no key of the result maps to an empty
list.  Concretely, a key whose only id candidate is a non-numeric string
contributes no entry at all. -/
theorem C10_prepare_assignee_map_values (raw : Option (List (RawKey × PyVal))) :
    (∀ k ids, (k, ids) ∈ prepareAssigneeMap raw → ids ≠ [])
    ∧ prepareAssigneeMap
        (some [(.kStr "Мария", .vStr "abc" none)]) = [] := by
  constructor
  · intro k ids hmem
    cases raw with
    | none => simp [prepareAssigneeMap] at hmem
    | some entries =>
      exact prepareAssigneeMap_fold_invariant entries [] (by simp) (k, ids) hmem
  · rfl

/-- Witness for C10: the repository's own test map `{"Мария": ["202", None,
"abc", 303]}` prepares to a non-empty id list. -/
theorem C10_prepare_assignee_map_values_witness :
    ("мария", [202, 303]) ∈ prepareAssigneeMap
        (some [(.kStr "Мария", .vList [.vStr "202" (some 202), .vNull,
          .vStr "abc" none, .vInt 303])])
    ∧ ([202, 303] : List Int) ≠ [] :=
  ⟨by decide,
    (C10_prepare_assignee_map_values
        (some [(.kStr "Мария", .vList [.vStr "202" (some 202), .vNull,
          .vStr "abc" none, .vInt 303])])).1
      "мария" [202, 303] (by decide)⟩

/-- **C7.** For every task record and every configured default priority in
{1,2,3,4}, the built payload's priority is in {1,2,3,4}; and when the raw
priority is missing, non-numeric, or outside {1,2,3,4}, the payload's
priority equals the configured default. -/
theorem C7_payload_priority (task : TaskRecord) (dp : Int) (ids : List Int)
    (hdp : dp = 1 ∨ dp = 2 ∨ dp = 3 ∨ dp = 4) :
    ((buildClickupPayload task dp ids).priority = 1
      ∨ (buildClickupPayload task dp ids).priority = 2
      ∨ (buildClickupPayload task dp ids).priority = 3
      ∨ (buildClickupPayload task dp ids).priority = 4)
    ∧ (rawPriorityInvalid task.priority → (buildClickupPayload task dp ids).priority = dp) := by
  constructor
  · unfold buildClickupPayload
    simp only
    split
    · assumption
    · exact hdp
  · intro hinv
    unfold buildClickupPayload
    simp only
    cases hp : task.priority with
    | pNull => simp [hdp]
    | pOther => simp [hdp]
    | pInt i =>
      rw [hp] at hinv
      simp only [rawPriorityInvalid] at hinv
      simp [hinv]
    | pStr s asInt =>
      cases asInt with
      | none => simp [hdp]
      | some i =>
        rw [hp] at hinv
        simp only [rawPriorityInvalid] at hinv
        simp [hinv]

/-- Witness for C7: raw priority `"7"` (numeric but outside 1-4) falls back
to the configured default 3, which is in {1,2,3,4}. -/
theorem C7_payload_priority_witness :
    ((buildClickupPayload ⟨some "t", some "d", .pStr "7" (some 7), none⟩ 3 []).priority = 1
      ∨ (buildClickupPayload ⟨some "t", some "d", .pStr "7" (some 7), none⟩ 3 []).priority = 2
      ∨ (buildClickupPayload ⟨some "t", some "d", .pStr "7" (some 7), none⟩ 3 []).priority = 3
      ∨ (buildClickupPayload ⟨some "t", some "d", .pStr "7" (some 7), none⟩ 3 []).priority = 4)
    ∧ (buildClickupPayload ⟨some "t", some "d", .pStr "7" (some 7), none⟩ 3 []).priority = 3 := by
  have h := C7_payload_priority ⟨some "t", some "d", .pStr "7" (some 7), none⟩ 3 []
    (by norm_num)
  exact ⟨h.1, h.2 (by simp [rawPriorityInvalid])⟩

/-- **C8.** Persisting the member-directory cache entry for a list id
rewrites only that list's record, leaving every other list id's cached entry
unchanged; and a structurally valid entry for the requested list id written
within the TTL is returned with no network fetch. -/
theorem C8_member_cache_frame (file : Option MemberCacheFile) (listId k : String)
    (members network : List (String × List Int)) (now nowLater ttl : Int)
    (hk : k ≠ listId) (httl : 0 < ttl) (hfresh : nowLater - now ≤ ttl) :
    assocLookup k (saveMemberCache file listId members now).lists
        = assocLookup k (file.getD ⟨[]⟩).lists
    ∧ loadMemberCache (some (saveMemberCache file listId members now)) listId ttl nowLater
        = some members
    ∧ fetchClickupMemberMap (some (saveMemberCache file listId members now)) listId ttl
        nowLater network
        = (members, false, some (saveMemberCache file listId members now)) := by
  have hload : loadMemberCache (some (saveMemberCache file listId members now)) listId ttl
      nowLater = some members := by
    unfold loadMemberCache saveMemberCache
    rw [if_neg (show ¬ ttl ≤ 0 by omega)]
    simp only
    rw [assocLookup_assocSet_self]
    show (if ttl < nowLater - now then none else some members) = some members
    rw [if_neg (show ¬ ttl < nowLater - now by omega)]
  refine ⟨?_, hload, ?_⟩
  · unfold saveMemberCache
    exact assocLookup_assocSet_ne listId k (.valid now members) (file.getD ⟨[]⟩).lists hk
  · unfold fetchClickupMemberMap
    rw [hload]

/-- Witness for C8: an entry for list "L" written at minute 0 is read back at
minute 30 under a 60-minute TTL with no network fetch, and the entry of the
other list "M" is untouched. -/
theorem C8_member_cache_frame_witness :
    assocLookup "M" (saveMemberCache
        (some ⟨[("M", .valid 0 [("боб", [9])])]⟩) "L" [("иван", [1])] 0).lists
      = assocLookup "M"
          ((some (⟨[("M", .valid 0 [("боб", [9])])]⟩ : MemberCacheFile)).getD ⟨[]⟩).lists
    ∧ loadMemberCache (some (saveMemberCache
        (some ⟨[("M", .valid 0 [("боб", [9])])]⟩) "L" [("иван", [1])] 0)) "L" 60 30
      = some [("иван", [1])]
    ∧ fetchClickupMemberMap (some (saveMemberCache
        (some ⟨[("M", .valid 0 [("боб", [9])])]⟩) "L" [("иван", [1])] 0)) "L" 60 30 []
      = ([("иван", [1])], false, some (saveMemberCache
          (some ⟨[("M", .valid 0 [("боб", [9])])]⟩) "L" [("иван", [1])] 0)) :=
  C8_member_cache_frame (some ⟨[("M", .valid 0 [("боб", [9])])]⟩) "L" "M"
    [("иван", [1])] [] 0 30 60 (by decide) (by norm_num) (by norm_num)

theorem daysInMonth_le (y m : Nat) : daysInMonth y m ≤ 31 := by
  unfold daysInMonth
  split
  · split <;> norm_num
  · split <;> norm_num

theorem PyDate.valid_bounds {d : PyDate} (h : d.valid = true) :
    1 ≤ d.year ∧ d.year ≤ 9999 ∧ 1 ≤ d.month ∧ d.month ≤ 12 ∧ 1 ≤ d.day ∧ d.day ≤ 31 := by
  simp only [PyDate.valid, Bool.and_eq_true, decide_eq_true_eq] at h
  obtain ⟨⟨⟨⟨⟨h1, h2⟩, h3⟩, h4⟩, h5⟩, h6⟩ := h
  exact ⟨h1, h2, h3, h4, h5, le_trans h6 (daysInMonth_le d.year d.month)⟩

theorem digitChar_isDigit {n : Nat} (h : n ≤ 9) : isDigitChar (digitChar n) = true := by
  interval_cases n <;> decide

theorem digitVal_digitChar {n : Nat} (h : n ≤ 9) : digitVal (digitChar n) = n := by
  interval_cases n <;> decide

theorem isDigitChar_digitChar_mod (x : Nat) : isDigitChar (digitChar (x % 10)) = true :=
  digitChar_isDigit (by omega)

theorem digitVal_digitChar_mod (x : Nat) : digitVal (digitChar (x % 10)) = x % 10 :=
  digitVal_digitChar (by omega)

theorem digitVal_le {c : Char} (h : isDigitChar c = true) : digitVal c ≤ 9 := by
  simp only [isDigitChar, Bool.and_eq_true, decide_eq_true_eq] at h
  unfold digitVal
  omega

theorem digitChar_digitVal {c : Char} (h : isDigitChar c = true) : digitChar (digitVal c) = c := by
  simp only [isDigitChar, Bool.and_eq_true, decide_eq_true_eq] at h
  unfold digitChar digitVal
  rw [show 48 + (c.toNat - 48) = c.toNat by omega, Char.ofNat_toNat]

theorem isPySpace_of_digit {c : Char} (h : isDigitChar c = true) : isPySpace c = false := by
  simp only [isDigitChar, Bool.and_eq_true, decide_eq_true_eq] at h
  by_contra hcon
  rw [Bool.not_eq_false] at hcon
  simp only [isPySpace, Bool.or_eq_true, beq_iff_eq] at hcon
  rcases hcon with ((((h1 | h1) | h1) | h1) | h1) | h1 <;>
    (subst h1; exact absurd h (by decide))

theorem pyStripList_ten {y1 y2 y3 y4 h1 m1 m2 h2 d1 d2 : Char}
    (hy : isPySpace y1 = false) (hd : isPySpace d2 = false) :
    pyStripList [y1, y2, y3, y4, h1, m1, m2, h2, d1, d2]
      = [y1, y2, y3, y4, h1, m1, m2, h2, d1, d2] := by
  simp [pyStripList, List.dropWhile_cons, hy, hd]

theorem parseIsoDateList_isoChars {d : PyDate} (h : d.valid = true) :
    parseIsoDateList (isoChars d) = some d := by
  obtain ⟨y, m, dd⟩ := d
  obtain ⟨hy1, hy2, hm1, hm2, hd1, hd2⟩ := PyDate.valid_bounds h
  simp only at hy1 hy2 hm1 hm2 hd1 hd2
  have hlist : isoChars ⟨y, m, dd⟩ =
      [digitChar (y / 1000 % 10), digitChar (y / 100 % 10), digitChar (y / 10 % 10),
       digitChar (y % 10), '-', digitChar (m / 10 % 10), digitChar (m % 10), '-',
       digitChar (dd / 10 % 10), digitChar (dd % 10)] := rfl
  rw [hlist]
  simp only [parseIsoDateList, isDigitChar_digitChar_mod, digitVal_digitChar_mod,
    beq_self_eq_true, Bool.and_self, Bool.and_true, Bool.true_and, if_true]
  rw [show ((y / 1000 % 10 * 10 + y / 100 % 10) * 10 + y / 10 % 10) * 10 + y % 10 = y
      by omega,
    show m / 10 % 10 * 10 + m % 10 = m by omega,
    show dd / 10 % 10 * 10 + dd % 10 = dd by omega]
  rw [if_pos h]

theorem isoDateReList_isoChars (d : PyDate) : isoDateReList (isoChars d) = true := by
  obtain ⟨y, m, dd⟩ := d
  have hlist : isoChars ⟨y, m, dd⟩ =
      [digitChar (y / 1000 % 10), digitChar (y / 100 % 10), digitChar (y / 10 % 10),
       digitChar (y % 10), '-', digitChar (m / 10 % 10), digitChar (m % 10), '-',
       digitChar (dd / 10 % 10), digitChar (dd % 10)] := rfl
  rw [hlist]
  simp [isoDateReList, isDigitChar_digitChar_mod]

theorem pyStrip_isoformat (d : PyDate) : pyStrip d.isoformat = d.isoformat :=
  congrArg String.mk
    (pyStripList_ten (isPySpace_of_digit (isDigitChar_digitChar_mod _))
      (isPySpace_of_digit (isDigitChar_digitChar_mod _)))

theorem isoformat_ne_empty (d : PyDate) : d.isoformat ≠ "" := by
  intro h
  have h' := congrArg String.toList h
  simp only [PyDate.isoformat, isoChars, pad4, pad2, List.cons_append] at h'
  exact List.cons_ne_nil _ _ h'

theorem parseIsoDateList_shape {l : List Char} {d : PyDate}
    (h : parseIsoDateList l = some d) : d.valid = true ∧ l = isoChars d := by
  rw [parseIsoDateList.eq_def] at h
  split at h
  · rename_i y1 y2 y3 y4 h1 m1 m2 h2 d1 d2
    split at h
    · rename_i hguard
      dsimp only at h
      split at h
      · rename_i hvalid
        injection h with h
        subst h
        simp only [Bool.and_eq_true, beq_iff_eq] at hguard
        obtain ⟨⟨⟨⟨⟨⟨⟨⟨⟨hy1, hy2⟩, hy3⟩, hy4⟩, hh1⟩, hm1⟩, hm2⟩, hh2⟩, hd1⟩, hd2⟩ := hguard
        subst hh1
        subst hh2
        refine ⟨hvalid, ?_⟩
        have b1 := digitVal_le hy1
        have b2 := digitVal_le hy2
        have b3 := digitVal_le hy3
        have b4 := digitVal_le hy4
        have b5 := digitVal_le hm1
        have b6 := digitVal_le hm2
        have b7 := digitVal_le hd1
        have b8 := digitVal_le hd2
        simp only [isoChars, pad4, pad2, List.cons_append, List.nil_append]
        rw [show (((digitVal y1 * 10 + digitVal y2) * 10 + digitVal y3) * 10 + digitVal y4)
              / 1000 % 10 = digitVal y1 by omega,
          show (((digitVal y1 * 10 + digitVal y2) * 10 + digitVal y3) * 10 + digitVal y4)
              / 100 % 10 = digitVal y2 by omega,
          show (((digitVal y1 * 10 + digitVal y2) * 10 + digitVal y3) * 10 + digitVal y4)
              / 10 % 10 = digitVal y3 by omega,
          show (((digitVal y1 * 10 + digitVal y2) * 10 + digitVal y3) * 10 + digitVal y4)
              % 10 = digitVal y4 by omega,
          show (digitVal m1 * 10 + digitVal m2) / 10 % 10 = digitVal m1 by omega,
          show (digitVal m1 * 10 + digitVal m2) % 10 = digitVal m2 by omega,
          show (digitVal d1 * 10 + digitVal d2) / 10 % 10 = digitVal d1 by omega,
          show (digitVal d1 * 10 + digitVal d2) % 10 = digitVal d2 by omega]
        rw [digitChar_digitVal hy1, digitChar_digitVal hy2, digitChar_digitVal hy3,
          digitChar_digitVal hy4, digitChar_digitVal hm1, digitChar_digitVal hm2,
          digitChar_digitVal hd1, digitChar_digitVal hd2]
      · exact absurd h (by simp)
    · exact absurd h (by simp)
  · exact absurd h (by simp)

theorem parseIsoDate_shape {s : String} {d : PyDate} (h : parseIsoDate s = some d) :
    d.valid = true ∧ s = d.isoformat := by
  obtain ⟨hval, hl⟩ := parseIsoDateList_shape h
  refine ⟨hval, ?_⟩
  show s = String.mk (isoChars d)
  rw [← hl]
  cases s
  rfl

theorem normalizeInner_isoformat (d today : PyDate) (rel : Option PyDate)
    (hval : d.valid = true) :
    normalizeInner (.strVal d.isoformat rel) today
      = if d.lt today then none else some d.isoformat := by
  simp only [normalizeInner]
  rw [pyStrip_isoformat]
  rw [if_neg (isoformat_ne_empty d)]
  rw [show isoDateRe d.isoformat = true from isoDateReList_isoChars d]
  simp only [if_true]
  rw [show parseIsoDate d.isoformat = some d from parseIsoDateList_isoChars hval]

theorem normalizeInner_some_shape {v : RawDueDate} {today : PyDate} {out : String}
    (hv : rawDueValid v) (h : normalizeInner v today = some out) :
    ∃ d : PyDate, d.valid = true ∧ d.lt today = false ∧ out = d.isoformat := by
  cases v with
  | null => simp [normalizeInner] at h
  | listVal first => simp [normalizeInner] at h
  | otherVal => simp [normalizeInner] at h
  | numVal d =>
    simp only [normalizeInner] at h
    split at h
    · exact absurd h (by simp)
    · rename_i hlt
      injection h with h
      refine ⟨d, hv, ?_, h.symm⟩
      revert hlt
      cases PyDate.lt d today <;> simp
  | strVal s rel =>
    simp only [normalizeInner] at h
    split at h
    · exact absurd h (by simp)
    · by_cases hre : isoDateRe (pyStrip s) = true
      · rw [if_pos hre] at h
        cases hp : parseIsoDate (pyStrip s) with
        | none => rw [hp] at h; exact absurd h (by simp)
        | some d =>
          rw [hp] at h
          dsimp only at h
          split at h
          · exact absurd h (by simp)
          · rename_i hlt
            injection h with h
            obtain ⟨hval, _⟩ := parseIsoDate_shape hp
            refine ⟨d, hval, ?_, h.symm⟩
            revert hlt
            cases PyDate.lt d today <;> simp
      · rw [if_neg hre] at h
        cases rel with
        | none => simp at h
        | some d =>
          dsimp only at h
          split at h
          · exact absurd h (by simp)
          · rename_i hlt
            injection h with h
            refine ⟨d, hv, ?_, h.symm⟩
            revert hlt
            cases PyDate.lt d today <;> simp

theorem normalizeDueDateValue_some_shape {v : RawDueDate} {today : PyDate} {out : String}
    (hv : rawDueValid v) (h : normalizeDueDateValue v today = some out) :
    ∃ d : PyDate, d.valid = true ∧ d.lt today = false ∧ out = d.isoformat := by
  cases v with
  | null => simp [normalizeDueDateValue, normalizeInner] at h
  | listVal first => exact normalizeInner_some_shape (v := first) hv h
  | strVal s rel => exact normalizeInner_some_shape hv h
  | numVal d => exact normalizeInner_some_shape hv h
  | otherVal => exact normalizeInner_some_shape hv h

/-- **C5.** Due-date normalization: a strict `YYYY-MM-DD` token denoting
today or a future date is returned unchanged; a strict token denoting a
strictly past date yields absent; a non-ISO phrase that `dateparser`
resolves to a (valid) date yields that date's ISO form when it is not past,
and absent when it is strictly past; and every non-absent result is an ISO
date that is on or after today in the configured timezone. -/
theorem C5_normalize_due_date (today : PyDate) :
    (∀ (s : String) (rel : Option PyDate) (d : PyDate),
        parseIsoDate s = some d → d.lt today = false →
        normalizeDueDateValue (.strVal s rel) today = some s)
    ∧ (∀ (s : String) (rel : Option PyDate) (d : PyDate),
        parseIsoDate s = some d → d.lt today = true →
        normalizeDueDateValue (.strVal s rel) today = none)
    ∧ (∀ (s : String) (d : PyDate), pyStrip s ≠ "" → isoDateRe (pyStrip s) = false →
        d.valid = true → d.lt today = false →
        normalizeDueDateValue (.strVal s (some d)) today = some d.isoformat)
    ∧ (∀ (s : String) (d : PyDate), pyStrip s ≠ "" → isoDateRe (pyStrip s) = false →
        d.lt today = true →
        normalizeDueDateValue (.strVal s (some d)) today = none)
    ∧ (∀ (v : RawDueDate) (out : String), rawDueValid v →
        normalizeDueDateValue v today = some out →
        ∃ d, parseIsoDate out = some d ∧ d.valid = true ∧ d.lt today = false) := by
  refine ⟨?_, ?_, ?_, ?_, ?_⟩
  · intro s rel d hp hlt
    obtain ⟨hval, hs⟩ := parseIsoDate_shape hp
    subst hs
    show normalizeInner (.strVal d.isoformat rel) today = some d.isoformat
    rw [normalizeInner_isoformat d today rel hval]
    simp [hlt]
  · intro s rel d hp hlt
    obtain ⟨hval, hs⟩ := parseIsoDate_shape hp
    subst hs
    show normalizeInner (.strVal d.isoformat rel) today = none
    rw [normalizeInner_isoformat d today rel hval]
    simp [hlt]
  · intro s d hne hre hval hlt
    show normalizeInner (.strVal s (some d)) today = some d.isoformat
    simp only [normalizeInner]
    rw [if_neg hne]
    rw [if_neg (by rw [hre]; simp)]
    simp [hlt]
  · intro s d hne hre hlt
    show normalizeInner (.strVal s (some d)) today = none
    simp only [normalizeInner]
    rw [if_neg hne]
    rw [if_neg (by rw [hre]; simp)]
    simp [hlt]
  · intro v out hv h
    obtain ⟨d, hval, hlt, hout⟩ := normalizeDueDateValue_some_shape hv h
    subst hout
    exact ⟨d, parseIsoDateList_isoChars hval, hval, hlt⟩

/-- Witness for C5: the repository's own due-date test: the strict future
token "2030-01-05" is preserved unchanged (with "today" = 2025-10-12). -/
theorem C5_normalize_due_date_witness :
    normalizeDueDateValue (.strVal "2030-01-05" none) ⟨2025, 10, 12⟩ = some "2030-01-05" :=
  (C5_normalize_due_date ⟨2025, 10, 12⟩).1 "2030-01-05" none ⟨2030, 1, 5⟩
    (by decide) (by decide)

/-- **C9.** Due-date normalization is idempotent: when it returns a
non-absent ISO date string, applying it again to that output (whatever
`dateparser` would say about it) at the same instant returns the same
string. -/
theorem C9_normalize_idempotent (v : RawDueDate) (today : PyDate) (out : String)
    (rel2 : Option PyDate) (hv : rawDueValid v)
    (h : normalizeDueDateValue v today = some out) :
    normalizeDueDateValue (.strVal out rel2) today = some out := by
  obtain ⟨d, hval, hlt, hout⟩ := normalizeDueDateValue_some_shape hv h
  subst hout
  show normalizeInner (.strVal d.isoformat rel2) today = some d.isoformat
  rw [normalizeInner_isoformat d today rel2 hval]
  simp [hlt]

/-- Witness for C9: "завтра" normalizes (on 2025-10-12, with dateparser
returning 2025-10-13) to "2025-10-13", and normalizing that output again
returns it unchanged. -/
theorem C9_normalize_idempotent_witness :
    normalizeDueDateValue (.strVal "2025-10-13" none) ⟨2025, 10, 12⟩ = some "2025-10-13" :=
  C9_normalize_idempotent (.strVal "завтра" (some ⟨2025, 10, 13⟩)) ⟨2025, 10, 12⟩
    "2025-10-13" none
    (by show PyDate.valid ⟨2025, 10, 13⟩ = true; decide) (by decide)

theorem appendUnique_nodup {res : List Int} (h : res.Nodup) (mid : Int) :
    (appendUnique res mid).Nodup := by
  unfold appendUnique
  split
  · exact h
  · rename_i hmem
    simp [List.nodup_append, h, hmem]

theorem foldl_appendUnique_nodup (ids : List Int) :
    ∀ res : List Int, res.Nodup → (ids.foldl appendUnique res).Nodup := by
  induction ids with
  | nil => intro res h; exact h
  | cons i rest ih => intro res h; exact ih _ (appendUnique_nodup h i)

theorem mem_foldl_appendUnique (ids : List Int) :
    ∀ (res : List Int) (x : Int), x ∈ ids.foldl appendUnique res → x ∈ res ∨ x ∈ ids := by
  induction ids with
  | nil => intro res x h; exact Or.inl h
  | cons i rest ih =>
    intro res x h
    rcases ih _ x h with h' | h'
    · unfold appendUnique at h'
      split at h'
      · exact Or.inl h'
      · rcases List.mem_append.mp h' with h'' | h''
        · exact Or.inl h''
        · right
          rw [List.mem_singleton.mp h'']
          exact List.mem_cons_self i rest
    · right; exact List.mem_cons_of_mem i h'

theorem resolveStep_nodup (amap : List (String × List Int)) (aliasM : List (String × String))
    {res : List Int} (h : res.Nodup) (c : String) : (resolveStep amap aliasM res c).Nodup := by
  simp only [resolveStep]
  by_cases hn : normalizeName c = ""
  · rw [if_pos hn]; exact h
  · rw [if_neg hn]
    cases hl : assocLookup (aliasKeyOf aliasM (normalizeName c)) amap with
    | none => exact h
    | some ids =>
      dsimp only
      by_cases hids : ids = []
      · rw [if_pos hids]; exact h
      · rw [if_neg hids]
        exact foldl_appendUnique_nodup ids res h

theorem resolveStep_mem (amap : List (String × List Int)) (aliasM : List (String × String))
    (res : List Int) (c : String) (x : Int) (h : x ∈ resolveStep amap aliasM res c) :
    x ∈ res ∨ ∃ k ids, assocLookup k amap = some ids ∧ x ∈ ids := by
  simp only [resolveStep] at h
  by_cases hn : normalizeName c = ""
  · rw [if_pos hn] at h; exact Or.inl h
  · rw [if_neg hn] at h
    cases hl : assocLookup (aliasKeyOf aliasM (normalizeName c)) amap with
    | none => rw [hl] at h; exact Or.inl h
    | some ids =>
      rw [hl] at h
      dsimp only at h
      by_cases hids : ids = []
      · rw [if_pos hids] at h; exact Or.inl h
      · rw [if_neg hids] at h
        rcases mem_foldl_appendUnique ids res x h with h' | h'
        · exact Or.inl h'
        · exact Or.inr ⟨_, ids, hl, h'⟩

theorem foldl_resolveStep_nodup (amap : List (String × List Int))
    (aliasM : List (String × String)) (cands : List String) :
    ∀ res : List Int, res.Nodup → (cands.foldl (resolveStep amap aliasM) res).Nodup := by
  induction cands with
  | nil => intro res h; exact h
  | cons c rest ih => intro res h; exact ih _ (resolveStep_nodup amap aliasM h c)

theorem foldl_resolveStep_mem (amap : List (String × List Int))
    (aliasM : List (String × String)) (cands : List String) :
    ∀ (res : List Int) (x : Int), x ∈ cands.foldl (resolveStep amap aliasM) res →
      x ∈ res ∨ ∃ k ids, assocLookup k amap = some ids ∧ x ∈ ids := by
  induction cands with
  | nil => intro res x h; exact Or.inl h
  | cons c rest ih =>
    intro res x h
    rcases ih _ x h with h' | h'
    · exact resolveStep_mem amap aliasM res c x h'
    · exact Or.inr h'

theorem foldl_resolveStep_nomatch (amap : List (String × List Int))
    (aliasM : List (String × String)) (cands : List String)
    (h : ∀ c ∈ cands, (assocLookup (aliasKeyOf aliasM (normalizeName c)) amap).getD [] = []) :
    ∀ res : List Int, cands.foldl (resolveStep amap aliasM) res = res := by
  induction cands with
  | nil => intro res; rfl
  | cons c rest ih =>
    intro res
    rw [List.foldl_cons]
    have hstep : resolveStep amap aliasM res c = res := by
      simp only [resolveStep]
      by_cases hn : normalizeName c = ""
      · rw [if_pos hn]
      · rw [if_neg hn]
        cases hl : assocLookup (aliasKeyOf aliasM (normalizeName c)) amap with
        | none => rfl
        | some ids =>
          have hids : ids = [] := by
            have h' := h c (List.mem_cons_self _ _)
            rw [hl] at h'
            exact h'
          dsimp only
          rw [if_pos hids]
    rw [hstep]
    exact ih (fun c' hc' => h c' (List.mem_cons_of_mem _ hc')) res

/-- **C6.** The assignee resolver tries the whole original string and each
split fragment as candidates, normalizes and alias-substitutes each, and
returns the found ids in first-seen order with no duplicates; in particular
`resolve("Иван и Мария")` over `{"иван": [1], "мария": [2]}` is `[1, 2]`;
every returned id comes from some directory entry; and when no candidate's
(alias-substituted, normalized) key has a non-empty directory entry the
result is the empty list — never an error. -/
theorem C6_resolve_assignees :
    resolveAssigneeIds (.strV "Иван и Мария") [("иван", [1]), ("мария", [2])] [] = [1, 2]
    ∧ (∀ (value : AssigneeValue) (amap : List (String × List Int))
        (aliasM : List (String × String)), (resolveAssigneeIds value amap aliasM).Nodup)
    ∧ (∀ (value : AssigneeValue) (amap : List (String × List Int))
        (aliasM : List (String × String)) (x : Int), x ∈ resolveAssigneeIds value amap aliasM →
        ∃ k ids, assocLookup k amap = some ids ∧ x ∈ ids)
    ∧ (∀ (value : AssigneeValue) (amap : List (String × List Int))
        (aliasM : List (String × String)),
        (∀ c ∈ candidatesOf value,
          (assocLookup (aliasKeyOf aliasM (normalizeName c)) amap).getD [] = []) →
        resolveAssigneeIds value amap aliasM = []) := by
  refine ⟨by decide, ?_, ?_, ?_⟩
  · intro value amap aliasM
    unfold resolveAssigneeIds
    split
    · exact List.nodup_nil
    · exact foldl_resolveStep_nodup amap aliasM _ [] List.nodup_nil
  · intro value amap aliasM x hx
    unfold resolveAssigneeIds at hx
    split at hx
    · simp at hx
    · rcases foldl_resolveStep_mem amap aliasM _ [] x hx with h | h
      · simp at h
      · exact h
  · intro value amap aliasM h
    unfold resolveAssigneeIds
    split
    · rfl
    · exact foldl_resolveStep_nomatch amap aliasM _ h []

/-- Witness for C6: a mention matching no directory key resolves to the
empty list. -/
theorem C6_resolve_assignees_witness :
    resolveAssigneeIds (.strV "Петр") [("иван", [1])] [] = [] :=
  C6_resolve_assignees.2.2.2 (.strV "Петр") [("иван", [1])] [] (by decide)

end TgClickup

